import Mathlib

/-!
Shallow embedding of the alchemy-monorepo sources:
  - `docs/scripts/gen.js` — the documentation-generation build script
  - `src/components/ViewDao/DaoMembersContainer.tsx` — the members UI container
  - `src/components/Scheme/Staking/LockRow.tsx` — the staking lock row
  - the `Reputation` data-access class (`reputation.ts`)
together with proofs checking the natural-language specification against it.

JavaScript strings are modelled as Lean `String`s; the handful of string
operations the code uses (`String.prototype.split`, `String.prototype.replace`
with a string pattern, `path.basename`, `path.dirname`, `toLowerCase`) are
implemented below over `List Char` with their JavaScript semantics
(`replace` replaces only the first occurrence; `split` keeps empty pieces).
-/

/-! ### JavaScript string primitives over `List Char` -/

/-- Splitting a character list at every occurrence of the separator `c`,
keeping empty pieces, exactly as JavaScript `String.prototype.split` does
for a one-character separator. The result is never empty. -/
def splitOnChar (c : Char) : List Char → List (List Char)
  | [] => [[]]
  | x :: xs =>
    let r := splitOnChar c xs
    if x = c then [] :: r
    else
      match r with
      | [] => [[x]]
      | y :: ys => (x :: y) :: ys

/-- Replacing the first (leftmost) occurrence of `pat` by `repl`, the
semantics of JavaScript `String.prototype.replace` with a string pattern. -/
def replaceFirstChars (pat repl : List Char) : List Char → List Char
  | [] => if pat.isPrefixOf ([] : List Char) then repl else []
  | x :: xs =>
    if pat.isPrefixOf (x :: xs) then repl ++ (x :: xs).drop pat.length
    else x :: replaceFirstChars pat repl xs

/-- JavaScript `s.split(c)` for a one-character separator, on `String`. -/
def jsSplitChar (c : Char) (s : String) : List String :=
  (splitOnChar c s.data).map (fun l => { data := l })

/-- JavaScript `s.replace(pat, repl)` for a string pattern: only the first
occurrence is replaced. -/
def jsReplace (s pat repl : String) : String :=
  { data := replaceFirstChars pat.data repl.data s.data }

/-- Node's `path.basename`: the part after the last slash. -/
def jsBasename (p : String) : String :=
  { data := (splitOnChar '/' p.data).getLastD [] }

/-- Node's `path.dirname` (for the relative paths this script builds):
everything before the last slash, or `"."` when there is no slash. -/
def jsDirname (p : String) : String :=
  match splitOnChar '/' p.data with
  | [] => "."
  | [_] => "."
  | parts => { data := List.intercalate ['/'] parts.dropLast }

/-- JavaScript `s.toLowerCase()` (ASCII case, which is all the hex
addresses this code lowercases use). -/
def jsToLowerCase (s : String) : String :=
  { data := s.data.map Char.toLower }

/-- There is no occurrence of `pat` starting at any index `< n` of `s`. -/
def noMatchBefore (pat s : List Char) (n : Nat) : Prop :=
  ∀ i, i < n → pat.isPrefixOf (s.drop i) = false

instance (pat s : List Char) (n : Nat) : Decidable (noMatchBefore pat s n) := by
  unfold noMatchBefore
  infer_instance

/-! ### `docs/scripts/gen.js` — the documentation build script

The script's file-system and process behaviour is embedded as a trace of
effects.  Reads (`fs.readFileSync`, `fs.existsSync`) feed pure values that
are parameters of the definitions; the effects recorded are the ones the
claims are about: the recursive delete, the glob listing, log output,
directory creation, file writes, and the exit code.  JavaScript exceptions
in the `try` block are modelled by a failure point `failAt`: if
`failAt = some k`, the first `k` effects of the `try` body happen and then
control transfers to the `catch` handler. -/

/-- Output of `solc.compile`: one entry per key of `output.contracts`,
in the form `'somefile.sol:somecontract'`.  The per-contract compiler data
(`interface`, `metadata`, `gasEstimates`) is carried opaquely. -/
structure SolcData where
  interfaceJson : String
  metadataJson : String
  gasEstimatesJson : String
deriving DecidableEq, Repr

/-- One entry of `output.contracts` as returned by `solc.compile`. -/
structure SolcEntry where
  key : String
  data : SolcData
deriving DecidableEq, Repr

/-- One element of the list `compile` returns: `{file, contractName, data}`. -/
structure CompiledRef where
  file : String
  contractName : String
  data : SolcData
deriving DecidableEq, Repr

/-- The body of the `map` in `compile` (gen.js lines 45-50): the compiler
key is split at `':'`; `split[0]` is the file and `split[1]` the contract
name.  (In JavaScript a missing `split[1]` would be `undefined`; solc keys
always contain one `':'`, and the embedding defaults to `""`.) -/
def splitKeyEntry (e : SolcEntry) : CompiledRef :=
  let split := jsSplitChar ':' e.key
  { file := split.getD 0 "", contractName := split.getD 1 "", data := e.data }

/-- `compile` (gen.js lines 31-52) restricted to its pure part: the
compiler's output entries are mapped through the key split and then
filtered to the contracts whose source file is one of the input `files`
(`files.indexOf(file) !== -1`), dropping contracts that were only compiled
because they were imported as dependencies. -/
def compile (files : List String) (outputContracts : List SolcEntry) : List CompiledRef :=
  (outputContracts.map splitKeyEntry).filter (fun c => files.contains c.file)

/-- `destFn` (gen.js line 112): `'toc'` maps to `'./docs/ref/README.md'`;
any other file maps to the file path with the first `'./contracts'`
replaced by `'./docs/ref'` and the first occurrence of the file's basename
replaced by `'<contractName>.md'`. -/
def destFn (file name : String) : String :=
  if file = "toc" then "./docs/ref/README.md"
  else jsReplace (jsReplace file "./contracts" "./docs/ref") (jsBasename file) (name ++ ".md")

/-- `headerFn` (gen.js line 113), the analogous mapping into `./docs/headers`. -/
def headerFn (file name : String) : String :=
  if file = "toc" then "./docs/headers/README.md"
  else jsReplace (jsReplace file "./contracts" "./docs/headers") (jsBasename file) (name ++ ".md")

/-- File-system / process effects of the build script. -/
inductive Effect where
  | rmRf (p : String)
  | lsGlob (pat : String)
  | log (s : String)
  | mkdirP (p : String)
  | writeFile (p : String) (contents : String)
  | exitCode (c : Nat)
deriving DecidableEq, Repr

/-- Whether an effect mutates the file system. -/
def Effect.isFsMutation : Effect → Bool
  | .rmRf _ => true
  | .mkdirP _ => true
  | .writeFile _ _ => true
  | _ => false

/-- Effects of `render` (gen.js lines 64-104): make the table-of-contents
directory and write the table of contents at `destFn 'toc'`, then for each
compiled contract make its directory and write the rendered page at
`destFn file contractName`.  The rendered strings (which in the source
come from `JSON.parse` of the compiler data fed into the external
`templates.js` functions together with the optional header file) are
abstracted as the parameters `tocContent` and `contractContent`. -/
def renderEffects (compileOutput : List CompiledRef) (dest _hdr : String → String → String)
    (contractContent : CompiledRef → String) (tocContent : String) : List Effect :=
  let tocDest := dest "toc" ""
  [Effect.mkdirP (jsDirname tocDest), Effect.writeFile tocDest tocContent]
    ++ compileOutput.flatMap (fun c =>
        [Effect.mkdirP (jsDirname (dest c.file c.contractName)),
         Effect.writeFile (dest c.file c.contractName) (contractContent c)])

/-- The `try` body of the script (gen.js lines 106-115): delete
`./docs/ref`, list `./contracts/*/*.sol`, log, compile, log, render.
`files` stands for the result of the glob listing and `solcOutput` for the
compiler's output entries. -/
def genTryBody (files : List String) (solcOutput : List SolcEntry)
    (contractContent : CompiledRef → String) (tocContent : String) : List Effect :=
  let output := compile files solcOutput
  Effect.rmRf "./docs/ref" ::
  Effect.lsGlob "./contracts/*/*.sol" ::
  Effect.log ("Compiling " ++ toString files.length ++ " files...") ::
  Effect.log ("Rendering " ++ toString output.length ++ " contracts...") ::
  renderEffects output destFn headerFn contractContent tocContent

/-- The `catch` handler (gen.js lines 117-121): log `'An error occurred'`,
log the error's stack trace, exit with status 1. -/
def catchEffects (stack : String) : List Effect :=
  [Effect.log "An error occurred", Effect.log stack, Effect.exitCode 1]

/-- The whole script under the try/catch: with no failure the `try` body
runs to completion followed by `shell.exit(0)`; a failure after `k`
effects truncates the body there and runs the `catch` handler. -/
def genScriptTrace (body : List Effect) (failAt : Option Nat) (stack : String) : List Effect :=
  match failAt with
  | none => body ++ [Effect.exitCode 0]
  | some k => body.take k ++ catchEffects stack

/-- Semantics of the fixed glob `./contracts/*/*.sol` passed to `shell.ls`
(gen.js line 108): the path has exactly the four components
`.`, `contracts`, a directory, a file; each `*` matches within one
component and does not match a leading dot (hidden entries). -/
def matchesLsPattern (p : String) : Bool :=
  match splitOnChar '/' p.data with
  | [dot, c, d, f] =>
    dot == ['.'] && c == "contracts".data &&
    !d.isEmpty && !(d.headD ' ' == '.') &&
    !f.isEmpty && !(f.headD ' ' == '.') && ".sol".data.isSuffixOf f
  | _ => false

/-- The consumed-file set as the specification words it: every `.sol` file
under `contracts/`, at any depth.  (Stated from the spec's words, for
comparison with the glob the code actually uses.) -/
def specClaimedConsumes (p : String) : Bool :=
  "./contracts/".data.isPrefixOf p.data && ".sol".data.isSuffixOf p.data

/-! ### The `Reputation` data-access class (`reputation.ts`)

Observables are embedded as the list of values they emit; an emission that
the source produces by `throw` inside a mapping function is an
`Except.error`.  The GraphQL client (`Arc`, file `arc.ts`, not among the
sources) is embedded as the response streams it yields for a given query
string. -/

/-- One `reputationContract` item of a query response (`null` is `none` at
the use site). -/
structure RepContractItem where
  id : String
  address : String
  totalSupply : Int
deriving DecidableEq, Repr

/-- The typed state `IReputationState` of `reputation.ts`. -/
structure IReputationState where
  address : String
  totalSupply : Int
deriving DecidableEq, Repr

/-- One `reputationHolders` item of a query response.  The `balance` field
may be absent (`undefined`), hence `Option`. -/
structure ReputationHolder where
  id : String
  address : String
  balance : Option String
  contract : String
deriving DecidableEq, Repr

/-- The `data` field of an `ApolloQueryResult` for the `reputationHolders`
query. -/
structure QueryData where
  reputationHolders : List ReputationHolder
deriving DecidableEq, Repr

/-- An `ApolloQueryResult` as consumed by `reputationOf`. -/
structure ApolloQueryResult where
  data : QueryData
deriving DecidableEq, Repr

/-- Modelled from the spec: the `Arc` GraphQL client (file `arc.ts`, not
among the sources) is, per the spec, "a GraphQL client wrapping a
blockchain indexing service" — embedded as the response streams the
indexing service yields for each query string: `objectResponse` for
single-object queries (`_getObservableObject`) and `queryResponse` for
plain queries (`getObservable`). -/
structure Arc where
  objectResponse : String → List (Option RepContractItem)
  queryResponse : String → List ApolloQueryResult

/-- Modelled from the spec: `Arc._getObservableObject` (file `arc.ts`, not
among the sources) — per the spec the data-access layer is "translating
parameterized GraphQL queries into typed observables of DOM-ready state",
so the single-object observable applies the entity's `itemMap` to each
response item. -/
def getObservableObject {α : Type} (context : Arc) (query : String)
    (itemMapF : Option RepContractItem → Except String α) : List (Except String α) :=
  (context.objectResponse query).map itemMapF

/-- The query string the `Reputation` constructor builds (whitespace of the
template literal abbreviated); the interpolated id is the lowercased
address. -/
def reputationStateQuery (address : String) : String :=
  "\x7b reputationContract (id: \"" ++ jsToLowerCase address ++
    "\") \x7b id, address, totalSupply \x7d \x7d"

/-- The query string `reputationOf` builds (whitespace abbreviated);
`address` is the holder and `contractAddress` is `this.address`. -/
def reputationOfQuery (address contractAddress : String) : String :=
  "\x7b reputationHolders ( where: \x7b address:\"" ++ address ++
    "\", contract: \"" ++ contractAddress ++
    "\"\x7d ) \x7b id, address, balance,contract \x7d \x7d"

/-- The `itemMap` closure of the `Reputation` constructor: a `null` item
throws `Could not find a reputation contract with address <lowercased>`;
otherwise the typed state is built from the item's `address` and
`totalSupply`. -/
def itemMap (address : String) (item : Option RepContractItem) : Except String IReputationState :=
  match item with
  | none => Except.error ("Could not find a reputation contract with address "
      ++ jsToLowerCase address)
  | some it => Except.ok { address := it.address, totalSupply := it.totalSupply }

/-- The `Reputation` class: fields `address`, `context` and the `state`
observable assigned in the constructor. -/
structure Reputation where
  address : String
  context : Arc
  state : List (Except String IReputationState)

/-- The `Reputation` constructor: stores `address` and `context` and sets
`state` to the observable obtained from `_getObservableObject` with the
`reputationContract` query and `itemMap`. -/
def Reputation.create (address : String) (context : Arc) : Reputation :=
  { address := address, context := context,
    state := getObservableObject context (reputationStateQuery address) (itemMap address) }

/-- A JavaScript number value as `reputationOf` produces it, kept
symbolic: the literal `0` or `Number(s)` for a balance string `s`. -/
inductive RepValue where
  | zero
  | numberOf (s : String)
deriving DecidableEq, Repr

/-- The second `map` of the `reputationOf` pipe:
`const item = items.length > 0 && items[0];
 return item.balance !== undefined ? Number(item.balance) : 0`.
When `items` is empty, `item` is the boolean `false` and `false.balance`
evaluates to `undefined` in JavaScript (it does not throw), so the result
is `0`. -/
def reputationHoldersToNumber (items : List ReputationHolder) : RepValue :=
  match items.head? with
  | none => RepValue.zero
  | some item =>
    match item.balance with
    | some b => RepValue.numberOf b
    | none => RepValue.zero

/-- `Reputation.reputationOf`: queries `reputationHolders` for the given
holder address on `this.address`, maps the result to
`r.data.reputationHolders` and then through the balance-to-number mapping.
The method body contains no assignment, so the object it leaves behind is
returned unchanged alongside the observable (state-passing embedding). -/
def Reputation.reputationOf (r : Reputation) (address : String) :
    List RepValue × Reputation :=
  (((r.context.queryResponse (reputationOfQuery address r.address)).map
      (fun q => q.data.reputationHolders)).map reputationHoldersToNumber,
   r)

/-! ### `DaoMembersContainer.tsx` — the members UI

React output is embedded as a tree of nodes; `jsUndefined` stands for a
child that is the JavaScript value `undefined`, which React renders as
nothing.  Attributes (class names, keys, props of leaf components) do not
affect the claims and are omitted; leaf components appear as tags. -/

/-- A rendered React node. -/
inductive Node where
  | text (s : String)
  | tag (name : String) (children : List Node)
  | jsUndefined

mutual

/-- The text a node tree renders, in document order. -/
def Node.textContent : Node → String
  | .text s => s
  | .jsUndefined => ""
  | .tag _ children => Node.textContentList children

/-- The text a list of children renders. -/
def Node.textContentList : List Node → String
  | [] => ""
  | n :: rest => Node.textContent n ++ Node.textContentList rest

end

/-- A JavaScript `Error` as the subscription state carries it. -/
structure JsError where
  message : String
deriving DecidableEq, Repr

/-- The `IObservableState` a `Subscribe` child callback receives. -/
structure IObservableState (α : Type) where
  error : Option JsError := none
  data : Option α := none

/-- The fields of `IMemberState` this component renders; `reputation` is
the text `{state.data.reputation}` renders. -/
structure IMemberState where
  address : String
  reputation : String
deriving DecidableEq, Repr

/-- A profile from the profiles reducer: only `socialURLs` (via
`Object.keys(profile.socialURLs).length`) matters to the rendering. -/
structure Profile where
  socialURLs : List String
deriving DecidableEq, Repr

/-- The profiles map, indexed by account address. -/
def Profiles := String → Option Profile

/-- The field of `IDAOState` this component reads. -/
structure IDAOState where
  address : String
deriving DecidableEq, Repr

/-- A `Member` entity: what the component uses of it is its `state`
observable, embedded as its emissions. -/
structure Member where
  state : List (IObservableState IMemberState)

/-- The member entry JSX of the data branch (DaoMembersContainer.tsx
lines 44-74): account image, optional profile block, the member's
address, and `Reputation: <reputation>`. -/
def memberEntry (_dao : IDAOState) (profiles : Profiles) (memberState : IMemberState) : Node :=
  let profile := profiles memberState.address
  Node.tag "div"
    ([Node.tag "AccountImage" []] ++
     [Node.tag "div"
        ((match profile with
          | some p =>
            [Node.tag "div"
              ([Node.tag "AccountProfileName" []] ++
               (if p.socialURLs.length == 0 then [Node.text ""]
                else [Node.tag "span"
                  [Node.tag "OAuthLogin" [], Node.tag "OAuthLogin" [],
                   Node.tag "OAuthLogin" []]]) ++
               [Node.tag "br" []])]
          | none => [Node.text ""]) ++
         [Node.tag "div" [Node.text memberState.address]])] ++
     [Node.tag "div" [Node.text "Reputation: ",
        Node.tag "span" [Node.text memberState.reputation]]])

/-- The `Subscribe` child callback over a member's state observable
(DaoMembersContainer.tsx lines 38-78): an error state renders the error's
message, a data state renders the member entry, otherwise the loading
text. -/
def memberSubscribeChild (dao : IDAOState) (profiles : Profiles)
    (state : IObservableState IMemberState) : Node :=
  match state.error with
  | some e => Node.tag "div" [Node.text e.message]
  | none =>
    match state.data with
    | some memberState => memberEntry dao profiles memberState
    | none => Node.tag "div" [Node.text "...loading.."]

/-- `DaoMembersContainer.render` (DaoMembersContainer.tsx lines 34-86).
The callback of `members.map` is a block body
`(member) => { <Subscribe …>…</Subscribe> }` with no `return` statement:
the `Subscribe` element is constructed and discarded and the callback
yields `undefined`, so every entry of `membersHTML` is `undefined` and the
container is a `div` of children that render nothing. -/
def daoMembersContainerRender (_dao : IDAOState) (members : List Member)
    (_profiles : Profiles) : Node :=
  let membersHTML := members.map (fun _member => Node.jsUndefined)
  Node.tag "div" membersHTML

/-- The `Subscribe` child callback over `dao.members()` in the default
export (DaoMembersContainer.tsx lines 96-105): an error state renders the
error's message, a data state renders the connected container over the
member list, otherwise the loading image. -/
def daoMembersPageChild (dao : IDAOState) (profiles : Profiles)
    (state : IObservableState (List Member)) : Node :=
  match state.error with
  | some e => Node.tag "div" [Node.text e.message]
  | none =>
    match state.data with
    | some members => daoMembersContainerRender dao members profiles
    | none => Node.tag "div" [Node.tag "img" []]

/-- The default export (DaoMembersContainer.tsx lines 92-109): with a dao
address in the route it returns the subscription element; without one it
throws. -/
def daoMembersPageRoot (daoAvatarAddress : Option String) : Except String Unit :=
  match daoAvatarAddress with
  | some _ => Except.ok ()
  | none => Except.error "No dao address specified "

/-! ### `LockRow.tsx` — the staking lock row

Times are seconds since the epoch as integers (`moment.unix` /
`moment()` comparisons compare instants); the numeric lock fields are the
values `Number(...)` yields on them. -/

/-- The lock fields `LockRow` reads, after `Number(...)`. -/
structure ICL4RLock where
  lockingId : Int
  lockingTime : Int
  period : Int
  released : Bool
  releasedAt : Int
deriving DecidableEq, Repr

/-- The scheme parameter fields `LockRow` reads, after `Number(...)`. -/
structure ICL4RParams where
  startTime : Int
  batchTime : Int
deriving DecidableEq, Repr

/-- `releasable` (LockRow.tsx lines 26-28):
`moment.unix(lockingTime).add(period * batchTime, "seconds")`. -/
def releasableTime (lockData : ICL4RLock) (schemeParams : ICL4RParams) : Int :=
  lockData.lockingTime + lockData.period * schemeParams.batchTime

/-- An action control of the row's actions cell. -/
inductive LockAction where
  | release
  | extend
deriving DecidableEq, Repr

/-- The actions cell of `LockRow` (LockRow.tsx lines 52-61): the Release
button is rendered under `!lockData.released && release` where `release`
is `moment() >= releasable && !lockData.released` (lines 30-32); the
Extend control is rendered under `!isLockingEnded && moment() <=
releasable`.  `now` is the instant `moment()` yields during the render. -/
def lockRowActions (now : Int) (isLockingEnded : Bool) (lockData : ICL4RLock)
    (schemeParams : ICL4RParams) : List LockAction :=
  let releasable := releasableTime lockData schemeParams
  let slotRelease := decide (releasable ≤ now) && !lockData.released
  (if !lockData.released && slotRelease then [LockAction.release] else []) ++
  (if !isLockingEnded && decide (now ≤ releasable) then [LockAction.extend] else [])

/-! ### Lemmas about the string primitives -/

theorem splitOnChar_ne_nil (c : Char) (l : List Char) : splitOnChar c l ≠ [] := by
  cases l with
  | nil => simp [splitOnChar]
  | cons x xs =>
    simp only [splitOnChar]
    split
    · simp
    · split
      · simp
      · simp

theorem splitOnChar_of_not_mem {c : Char} {l : List Char} (h : c ∉ l) :
    splitOnChar c l = [l] := by
  induction l with
  | nil => rfl
  | cons x xs ih =>
    have hxc : x ≠ c := fun hx => h (hx ▸ List.mem_cons_self x xs)
    have hxs : c ∉ xs := fun hm => h (List.mem_cons_of_mem x hm)
    simp only [splitOnChar, if_neg hxc, ih hxs]

theorem splitOnChar_sep_cons (c : Char) (l : List Char) :
    splitOnChar c (c :: l) = [] :: splitOnChar c l := by
  simp [splitOnChar]

theorem splitOnChar_cons_ne {c x : Char} (hx : x ≠ c) (l : List Char) :
    splitOnChar c (x :: l) =
      (x :: (splitOnChar c l).headD []) :: (splitOnChar c l).tail := by
  simp only [splitOnChar, if_neg hx]
  cases h : splitOnChar c l with
  | nil => exact absurd h (splitOnChar_ne_nil c l)
  | cons y ys => rfl

theorem splitOnChar_append_not_mem {c : Char} {a : List Char} (h : c ∉ a)
    (l : List Char) :
    splitOnChar c (a ++ l) =
      (a ++ (splitOnChar c l).headD []) :: (splitOnChar c l).tail := by
  induction a with
  | nil =>
    cases hs : splitOnChar c l with
    | nil => exact absurd hs (splitOnChar_ne_nil c l)
    | cons y ys => simp [hs]
  | cons x xs ih =>
    have hxc : x ≠ c := fun hx => h (hx ▸ List.mem_cons_self x xs)
    have hxs : c ∉ xs := fun hm => h (List.mem_cons_of_mem x hm)
    rw [List.cons_append, splitOnChar_cons_ne hxc, ih hxs]
    simp

theorem splitOnChar_boundary {c : Char} {a : List Char} (h : c ∉ a)
    (l : List Char) :
    splitOnChar c (a ++ c :: l) = a :: splitOnChar c l := by
  rw [splitOnChar_append_not_mem h, splitOnChar_sep_cons]
  simp

theorem replaceFirstChars_of_isPrefixOf {pat : List Char} {s : List Char}
    (h : pat.isPrefixOf s) (repl : List Char) :
    replaceFirstChars pat repl s = repl ++ s.drop pat.length := by
  cases s with
  | nil =>
    have : pat = [] := by
      cases pat with
      | nil => rfl
      | cons p ps => simp [List.isPrefixOf] at h
    subst this
    simp [replaceFirstChars]
  | cons x xs => simp [replaceFirstChars, h]

theorem replaceFirstChars_append (pat repl rest : List Char) :
    replaceFirstChars pat repl (pat ++ rest) = repl ++ rest := by
  have hpre : pat.isPrefixOf (pat ++ rest) := by
    rw [ List.isPrefixOf_iff_prefix]
    exact List.prefix_append pat rest
  rw [replaceFirstChars_of_isPrefixOf hpre, List.drop_left]

theorem replaceFirstChars_boundary (pat repl : List Char) :
    ∀ (P suffix : List Char),
      noMatchBefore pat (P ++ pat ++ suffix) P.length →
      replaceFirstChars pat repl (P ++ pat ++ suffix) = P ++ repl ++ suffix := by
  intro P
  induction P with
  | nil =>
    intro suffix _
    have hpre : pat.isPrefixOf (pat ++ suffix) := by
      rw [ List.isPrefixOf_iff_prefix]
      exact List.prefix_append pat suffix
    simp only [List.nil_append]
    rw [replaceFirstChars_of_isPrefixOf hpre, List.drop_left]
  | cons x P ih =>
    intro suffix h
    have h0 : pat.isPrefixOf ((x :: P ++ pat ++ suffix).drop 0) = false :=
      h 0 (Nat.succ_pos _)
    simp only [List.drop_zero] at h0
    have hcons : (x :: P) ++ pat ++ suffix = x :: (P ++ pat ++ suffix) := by
      simp
    rw [hcons] at h0 ⊢
    cases hx : pat.isPrefixOf (x :: (P ++ pat ++ suffix)) with
    | true => rw [hx] at h0; cases h0
    | false =>
      cases hs : (P ++ pat ++ suffix) with
      | nil =>
        exact absurd hs (by simp [List.append_assoc]; intro h1 h2; cases h2; simp_all)
      | cons y ys =>
        rw [← hs]
        have hstep : replaceFirstChars pat repl (x :: (P ++ pat ++ suffix)) =
            x :: replaceFirstChars pat repl (P ++ pat ++ suffix) := by
          rw [hs]
          simp only [replaceFirstChars]
          rw [← hs, hx]
          simp
        rw [hstep, ih suffix (fun i hi => by
          have := h (i + 1) (Nat.succ_lt_succ hi)
          rw [hcons] at this
          simpa using this)]
        simp

/-- Decomposition of a `./contracts/<dir>/<file>` path at the slashes. -/
theorem split_contracts_path (d f : String) (hd : '/' ∉ d.data) (hf : '/' ∉ f.data) :
    splitOnChar '/' ("./contracts/" ++ d ++ "/" ++ f).data
      = [['.'], "contracts".data, d.data, f.data] := by
  have h1 : ("./contracts/" ++ d ++ "/" ++ f).data
      = ['.'] ++ '/' :: ("contracts".data ++ '/' :: (d.data ++ '/' :: f.data)) := by
    simp [String.data_append]
  rw [h1,
    splitOnChar_boundary (show '/' ∉ ['.'] by decide),
    splitOnChar_boundary (show '/' ∉ "contracts".data by decide),
    splitOnChar_boundary hd,
    splitOnChar_of_not_mem hf]

/-- The basename of a `./contracts/<dir>/<file>` path is the file part. -/
theorem jsBasename_contract_path (d f : String) (hd : '/' ∉ d.data) (hf : '/' ∉ f.data) :
    jsBasename ("./contracts/" ++ d ++ "/" ++ f) = f := by
  unfold jsBasename
  rw [split_contracts_path d f hd hf]
  rfl

/-- `destFn` on a contract source path one directory below `contracts/`:
the leading `./contracts` becomes `./docs/ref` and the basename becomes
`<contractName>.md`, provided the basename does not also occur earlier in
the rewritten path (JavaScript `replace` rewrites the first occurrence). -/
theorem destFn_contract_path (d f name : String) (hd : '/' ∉ d.data) (hf : '/' ∉ f.data)
    (hnm : noMatchBefore f.data ("./docs/ref/" ++ d ++ "/" ++ f).data
      ("./docs/ref/" ++ d ++ "/").data.length) :
    destFn ("./contracts/" ++ d ++ "/" ++ f) name
      = "./docs/ref/" ++ d ++ "/" ++ name ++ ".md" := by
  have h1 : ("./contracts/" ++ d ++ "/" ++ f).data
      = ['.'] ++ '/' :: ("contracts".data ++ '/' :: (d.data ++ '/' :: f.data)) := by
    simp [String.data_append]
  have hneq : ("./contracts/" ++ d ++ "/" ++ f) ≠ "toc" := by
    intro h
    have hlen := congrArg (fun s : String => s.data.length) h
    simp [h1] at hlen
  have h2 : ("./contracts/" ++ d ++ "/" ++ f).data
      = "./contracts".data ++ ('/' :: (d.data ++ '/' :: f.data)) := by
    simp [String.data_append]
  have e1 : jsReplace ("./contracts/" ++ d ++ "/" ++ f) "./contracts" "./docs/ref"
      = { data := "./docs/ref".data ++ '/' :: (d.data ++ '/' :: f.data) } := by
    unfold jsReplace
    rw [h2, replaceFirstChars_append]
  have e2 : jsBasename ("./contracts/" ++ d ++ "/" ++ f) = f :=
    jsBasename_contract_path d f hd hf
  have hP : "./docs/ref".data ++ '/' :: (d.data ++ '/' :: f.data)
      = ("./docs/ref/" ++ d ++ "/").data ++ f.data ++ [] := by
    simp [String.data_append]
  have hnm' : noMatchBefore f.data
      (("./docs/ref/" ++ d ++ "/").data ++ f.data ++ [])
      ("./docs/ref/" ++ d ++ "/").data.length := by
    have q : ("./docs/ref/" ++ d ++ "/" ++ f).data
        = ("./docs/ref/" ++ d ++ "/").data ++ f.data ++ [] := by
      simp [String.data_append]
    exact q ▸ hnm
  have e3 : jsReplace { data := "./docs/ref".data ++ '/' :: (d.data ++ '/' :: f.data) }
        f (name ++ ".md")
      = "./docs/ref/" ++ d ++ "/" ++ name ++ ".md" := by
    unfold jsReplace
    rw [show ({ data := "./docs/ref".data ++ '/' :: (d.data ++ '/' :: f.data) } :
        String).data = ("./docs/ref/" ++ d ++ "/").data ++ f.data ++ [] from hP,
      replaceFirstChars_boundary f.data (name ++ ".md").data _ [] hnm']
    exact congrArg (fun l => ({ data := l } : String)) (by simp [String.data_append])
  unfold destFn
  rw [if_neg hneq, e1, e2, e3]

/-! ### Claim theorems -/

/-- C10: For every lock, `LockRow` renders the Release button exactly when
the lock is not released and the current time is at or after the
releasable time (`lockingTime + period * batchTime` seconds), and renders
the Extend control exactly when locking has not ended and the current time
is at or before that same releasable time, so at the boundary instant both
can be shown. -/
theorem lockRow_release_extend_conditions (now : Int) (isLockingEnded : Bool)
    (lockData : ICL4RLock) (schemeParams : ICL4RParams) :
    (LockAction.release ∈ lockRowActions now isLockingEnded lockData schemeParams ↔
      lockData.released = false ∧ releasableTime lockData schemeParams ≤ now) ∧
    (LockAction.extend ∈ lockRowActions now isLockingEnded lockData schemeParams ↔
      isLockingEnded = false ∧ now ≤ releasableTime lockData schemeParams) := by
  unfold lockRowActions
  cases hr : lockData.released <;> cases he : isLockingEnded <;>
    by_cases h1 : releasableTime lockData schemeParams ≤ now <;>
    by_cases h2 : now ≤ releasableTime lockData schemeParams <;>
    simp [hr, he, h1, h2]

/-- C4: The `Reputation` state observable translates each
`reputationContract` response item through `itemMap`: a non-null item
yields exactly `{address := item.address, totalSupply := item.totalSupply}`
and a null item raises the error `Could not find a reputation contract
with address ` followed by the lowercased address. -/
theorem reputation_state_translation (address : String) (context : Arc) :
    (Reputation.create address context).state =
      (context.objectResponse (reputationStateQuery address)).map (itemMap address) ∧
    (∀ it, itemMap address (some it) =
      Except.ok { address := it.address, totalSupply := it.totalSupply }) ∧
    itemMap address none = Except.error
      ("Could not find a reputation contract with address " ++ jsToLowerCase address) :=
  ⟨rfl, fun _ => rfl, rfl⟩

/-- C7: The data entities are read-only projections: `reputationOf`
leaves the `Reputation` instance — its `address`, `context` and `state`
fields — unchanged, and the data-access layer writes no local state. -/
theorem reputation_entities_readonly (r : Reputation) (a : String) :
    (r.reputationOf a).2 = r ∧
    (r.reputationOf a).2.address = r.address ∧
    (r.reputationOf a).2.context = r.context ∧
    (r.reputationOf a).2.state = r.state :=
  ⟨rfl, rfl, rfl, rfl⟩

/-- C8: For every query response, `reputationOf` emits `0` when the
`reputationHolders` list is empty or the first holder has no `balance`
field, and `Number(balance)` of the first holder otherwise; the mapping is
total (an empty holder list does not throw). -/
theorem reputationOf_balance_mapping (r : Reputation) (a : String) :
    (r.reputationOf a).1 =
      (r.context.queryResponse (reputationOfQuery a r.address)).map
        (fun q => reputationHoldersToNumber q.data.reputationHolders) ∧
    reputationHoldersToNumber [] = RepValue.zero ∧
    (∀ (h : ReputationHolder) (rest : List ReputationHolder),
      h.balance = none → reputationHoldersToNumber (h :: rest) = RepValue.zero) ∧
    (∀ (h : ReputationHolder) (rest : List ReputationHolder) (b : String),
      h.balance = some b → reputationHoldersToNumber (h :: rest) = RepValue.numberOf b) := by
  refine ⟨?_, rfl, ?_, ?_⟩
  · unfold Reputation.reputationOf
    rw [List.map_map]
    rfl
  · intro h rest hb
    simp [reputationHoldersToNumber, hb]
  · intro h rest b hb
    simp [reputationHoldersToNumber, hb]

/-- Witness for C8 at a concrete reputation object, holder list and
balances. -/
theorem reputationOf_balance_mapping_witness :
    reputationHoldersToNumber
        [{ id := "1", address := "0xa", balance := none, contract := "0xc" }] = RepValue.zero ∧
    reputationHoldersToNumber
        [{ id := "1", address := "0xa", balance := some "25", contract := "0xc" }] =
      RepValue.numberOf "25" := by
  have h := reputationOf_balance_mapping
    (Reputation.create "0xAB" ⟨fun _ => [], fun _ => []⟩) "0xholder"
  exact ⟨h.2.2.1 _ [] rfl, h.2.2.2 _ [] "25" rfl⟩

/-- C2 (failing input): an error emitted by a member-state observable is
never rendered by `DaoMembersContainer` — the block-bodied `members.map`
callback discards the `Subscribe` element it builds, so for a member whose
state observable carries the error `missing member` the component's output
holds no text, although the callback written inside it maps that error
state to a `div` holding the message; only the DAO members observable of
the default export has its error message rendered as output. -/
theorem memberState_error_not_rendered :
    (daoMembersContainerRender ⟨"0xd1"⟩
        [{ state := [{ error := some ⟨"missing member"⟩, data := none }] }]
        (fun _ => none)).textContent = "" ∧
    memberSubscribeChild ⟨"0xd1"⟩ (fun _ => none)
        { error := some ⟨"missing member"⟩, data := none }
      = Node.tag "div" [Node.text "missing member"] ∧
    daoMembersPageChild ⟨"0xd1"⟩ (fun _ => none)
        { error := some ⟨"page error"⟩, data := none }
      = Node.tag "div" [Node.text "page error"] := by
  refine ⟨rfl, rfl, rfl⟩

/-- C1: The documentation script exits 0 when the `try` body completes
without a thrown error; on any thrown error it logs the error's stack
trace and exits 1. -/
theorem gen_exit_codes (files : List String) (solcOutput : List SolcEntry)
    (contractContent : CompiledRef → String) (tocContent : String) (stack : String) :
    (genScriptTrace (genTryBody files solcOutput contractContent tocContent) none stack).getLast?
        = some (Effect.exitCode 0) ∧
    ∀ k,
      (genScriptTrace (genTryBody files solcOutput contractContent tocContent)
          (some k) stack).getLast? = some (Effect.exitCode 1) ∧
      Effect.log stack ∈
        genScriptTrace (genTryBody files solcOutput contractContent tocContent) (some k) stack := by
  refine ⟨?_, fun k => ⟨?_, ?_⟩⟩
  · unfold genScriptTrace
    exact List.getLast?_concat _
  · show (_ ++ catchEffects stack).getLast? = _
    have : (genTryBody files solcOutput contractContent tocContent).take k ++ catchEffects stack
        = ((genTryBody files solcOutput contractContent tocContent).take k
            ++ [Effect.log "An error occurred", Effect.log stack]) ++ [Effect.exitCode 1] := by
      simp [catchEffects]
    rw [this]
    exact List.getLast?_concat _
  · show Effect.log stack ∈ _ ++ catchEffects stack
    exact List.mem_append_right _ (by simp [catchEffects])

/-- C6: The script implements no recovery: the very first effect of the
`try` body unconditionally deletes `./docs/ref`, and on a failure at any
point the remaining effects are exactly the `catch` handler's two log
lines and `exit 1` — no retry and no restoring file-system writes. -/
theorem gen_no_recovery (files : List String) (solcOutput : List SolcEntry)
    (contractContent : CompiledRef → String) (tocContent : String) (stack : String) :
    (genTryBody files solcOutput contractContent tocContent).head?
        = some (Effect.rmRf "./docs/ref") ∧
    (∀ k, genScriptTrace (genTryBody files solcOutput contractContent tocContent)
            (some k) stack
        = (genTryBody files solcOutput contractContent tocContent).take k
            ++ catchEffects stack) ∧
    (∀ e ∈ catchEffects stack, e.isFsMutation = false) := by
  refine ⟨rfl, fun _ => rfl, ?_⟩
  intro e he
  simp only [catchEffects, List.mem_cons, List.mem_singleton, List.not_mem_nil] at he
  rcases he with h | h | h | h
  · subst h; rfl
  · subst h; rfl
  · subst h; rfl
  · cases h

/-- Witness for C6 at concrete script inputs and a concrete caught
effect. -/
theorem gen_no_recovery_witness :
    (genTryBody ["./contracts/a/X.sol"] [] (fun _ => "") "").head?
        = some (Effect.rmRf "./docs/ref") ∧
    (Effect.log "TypeError: boom").isFsMutation = false :=
  ⟨(gen_no_recovery ["./contracts/a/X.sol"] [] (fun _ => "") "" "TypeError: boom").1,
   (gen_no_recovery ["./contracts/a/X.sol"] [] (fun _ => "") "" "TypeError: boom").2.2
     (Effect.log "TypeError: boom") (by simp [catchEffects])⟩

/-- C9: `compile` returns exactly the entries of the compiler's output
whose key's file part is a member of the input file list — contracts
compiled only as imported dependencies are filtered out — and each
returned element's `file` and `contractName` are the two parts of the
output key split at `':'`. -/
theorem compile_filters_and_splits (files : List String) (solcOutput : List SolcEntry) :
    (∀ c ∈ compile files solcOutput, c.file ∈ files ∧ ∃ e ∈ solcOutput, c = splitKeyEntry e) ∧
    (∀ e ∈ solcOutput, (splitKeyEntry e).file ∈ files →
        splitKeyEntry e ∈ compile files solcOutput) ∧
    (∀ (a b : String) (d : SolcData), ':' ∉ a.data → ':' ∉ b.data →
        splitKeyEntry ⟨a ++ ":" ++ b, d⟩ = ⟨a, b, d⟩) := by
  refine ⟨?_, ?_, ?_⟩
  · intro c hc
    simp only [compile, List.mem_filter, List.mem_map] at hc
    obtain ⟨⟨e, he, hce⟩, hfile⟩ := hc
    refine ⟨by simpa using hfile, e, he, hce.symm⟩
  · intro e he hfile
    simp only [compile, List.mem_filter, List.mem_map]
    exact ⟨⟨e, he, rfl⟩, by simpa using hfile⟩
  · intro a b d ha hb
    have hdata : (a ++ ":" ++ b).data = a.data ++ ':' :: b.data := by
      simp [String.data_append]
    have hsplit : splitOnChar ':' (a.data ++ ':' :: b.data) = [a.data, b.data] := by
      rw [splitOnChar_boundary ha, splitOnChar_of_not_mem hb]
    simp [splitKeyEntry, jsSplitChar, hdata, hsplit]

/-- Witness for C9 at a concrete file list and compiler output. -/
theorem compile_filters_and_splits_witness :
    splitKeyEntry ⟨"a.sol:Token", ⟨"[]", "", ""⟩⟩ ∈
        compile ["a.sol"] [⟨"a.sol:Token", ⟨"[]", "", ""⟩⟩] ∧
    splitKeyEntry ⟨"a.sol" ++ ":" ++ "Token", ⟨"[]", "", ""⟩⟩
        = ⟨"a.sol", "Token", ⟨"[]", "", ""⟩⟩ := by
  have h := compile_filters_and_splits ["a.sol"] [⟨"a.sol:Token", ⟨"[]", "", ""⟩⟩]
  exact ⟨h.2.1 _ (by simp) (by decide), h.2.2 "a.sol" "Token" ⟨"[]", "", ""⟩ (by decide) (by decide)⟩

/-- C3 (failing input): with a mocked members response holding one member
whose state data is `{address := "0xabc1", reputation := "100"}`,
`DaoMembersContainer.render` outputs no text at all — the `members.map`
callback is a block-bodied arrow without `return`, so every entry of
`membersHTML` is `undefined` — although the member-state callback written
inside it would render the member's address and reputation text. -/
theorem daoMembers_render_missing_return :
    (daoMembersContainerRender ⟨"0xdao"⟩
        [{ state := [{ error := none, data := some ⟨"0xabc1", "100"⟩ }] }]
        (fun _ => none)).textContent = "" ∧
    (memberSubscribeChild ⟨"0xdao"⟩ (fun _ => none)
        { error := none, data := some ⟨"0xabc1", "100"⟩ }).textContent
      = "0xabc1Reputation: 100" := by
  constructor
  · rfl
  · rfl


/-- C5 counterexample: `./contracts/tokens/erc/X.sol` is a `.sol` file
under `contracts/` (so the claim's "at any depth" includes it), but the
glob `./contracts/*/*.sol` the script actually lists does not match it. -/
theorem gen_glob_depth_counterexample :
    specClaimedConsumes "./contracts/tokens/erc/X.sol" = true ∧
    matchesLsPattern "./contracts/tokens/erc/X.sol" = false := by
  constructor
  · rfl
  · rfl

/-- C5 (amended): the generator consumes the `.sol` files matching the
fixed glob `./contracts/*/*.sol` — exactly one directory level below
`contracts/`, not arbitrary depth — and writes markdown only under
`./docs/ref/`: the table of contents at `./docs/ref/README.md` and, per
compiled contract, `<contractName>.md` at the contract's source path with
the leading `./contracts` replaced by `./docs/ref` and the basename
replaced by the contract name. -/
theorem gen_fixed_dirs_io (files : List String) (solcOutput : List SolcEntry)
    (contractContent : CompiledRef → String) (tocContent : String)
    (d f name : String) (hd : '/' ∉ d.data) (hf : '/' ∉ f.data)
    (hnm : noMatchBefore f.data ("./docs/ref/" ++ d ++ "/" ++ f).data
      ("./docs/ref/" ++ d ++ "/").data.length) :
    (∃ rest, genTryBody files solcOutput contractContent tocContent
        = Effect.rmRf "./docs/ref" :: Effect.lsGlob "./contracts/*/*.sol" :: rest) ∧
    destFn "toc" "" = "./docs/ref/README.md" ∧
    destFn ("./contracts/" ++ d ++ "/" ++ f) name
        = "./docs/ref/" ++ d ++ "/" ++ name ++ ".md" ∧
    (∀ (out : List CompiledRef) (p s : String),
        Effect.writeFile p s ∈ renderEffects out destFn headerFn contractContent tocContent →
        p = "./docs/ref/README.md" ∨ ∃ c ∈ out, p = destFn c.file c.contractName) := by
  refine ⟨⟨_, rfl⟩, rfl, destFn_contract_path d f name hd hf hnm, ?_⟩
  intro out p s hmem
  simp only [renderEffects, List.mem_append, List.mem_cons, List.mem_flatMap,
    List.not_mem_nil, or_false] at hmem
  rcases hmem with hmem | hmem
  · rcases hmem with h | h
    · cases h
    · cases h
      exact Or.inl rfl
  · obtain ⟨c, hc, h⟩ := hmem
    rcases h with h | h
    · cases h
    · cases h
      exact Or.inr ⟨c, hc, rfl⟩

/-- Witness for C5 (amended) at a concrete contract path. -/
theorem gen_fixed_dirs_io_witness :
    destFn ("./contracts/" ++ "tokens" ++ "/" ++ "Token.sol") "ERC20"
      = "./docs/ref/" ++ "tokens" ++ "/" ++ "ERC20" ++ ".md" :=
  (gen_fixed_dirs_io [] [] (fun _ => "") "" "tokens" "Token.sol" "ERC20"
    (by decide) (by decide) (by decide)).2.2.1
